import Mathlib

set_option maxHeartbeats 1000000

/-
Verification of the Project-Meridian core pipeline (src/data_ingest.py and
src/signals.py): z-score signal computation, threshold position generation,
and backtest accounting.

Tables (pandas DataFrames) are modelled as lists of rows: the outer list is
the date axis in ascending order, each row is the list of per-instrument
cells.  A cell of value `none` models a pandas `NaN`; machine floats are
idealised as exact rationals / reals.  Wherever pandas float semantics can
produce `NaN` (missing data, zero standard deviation) the model produces
`none`; arithmetic on present values is exact field arithmetic.
-/

namespace Meridian

/-- Forward-fill of a single cell: keep the current value when present,
otherwise carry the previous state (pandas `ffill` per column). -/
def fillCell {β : Type} (prev cur : Option β) : Option β :=
  match cur with
  | some v => some v
  | none => prev

/-- Forward-fill of the remaining rows, given the filled previous row. -/
def ffillAux {β : Type} (prev : List (Option β)) :
    List (List (Option β)) → List (List (Option β))
  | [] => []
  | r :: rs =>
      (List.zipWith fillCell prev r) :: ffillAux (List.zipWith fillCell prev r) rs

/-- `DataFrame.ffill()`: carry the last observed value of every column
forward across dates; leading missing values stay missing. -/
def ffill {β : Type} : List (List (Option β)) → List (List (Option β))
  | [] => []
  | r :: rs => r :: ffillAux r rs

/-- Row predicate of `dropna(how="all")`: a row survives iff at least one
cell is present. -/
def keepRow {β : Type} (r : List (Option β)) : Bool :=
  r.any (fun c => c.isSome)

/-- The present (non-missing) values of a row, in order. -/
def rowPresent {α : Type} (r : List (Option α)) : List α :=
  r.filterMap (fun c => c)

/-- Cross-sectional mean of a row (`DataFrame.mean(axis=1)`): mean of the
present values, `none` when the whole row is missing. -/
def rowMean {α : Type} [LinearOrderedField α] (r : List (Option α)) : Option α :=
  if (rowPresent r).length = 0 then none
  else some ((rowPresent r).sum / ((rowPresent r).length : α))

/-- Cross-sectional sample standard deviation of a row
(`DataFrame.std(axis=1)`, `ddof = 1`): `none` for fewer than two present
values (pandas yields `NaN` there), otherwise
`sqrt (Σ (x - mean)² / (n - 1))` over the present values. -/
noncomputable def rowStd (r : List (Option ℝ)) : Option ℝ :=
  if (rowPresent r).length < 2 then none
  else some (Real.sqrt
    (((rowPresent r).map
        (fun x => (x - (rowPresent r).sum / ((rowPresent r).length : ℝ)) ^ 2)).sum /
      (((rowPresent r).length : ℝ) - 1)))

/-- One z-score cell: `(value - mean) / std`.  A missing value, missing
mean or missing std gives `none`.  When the std is zero every present value
of the row equals the mean, so the float division is `0/0 = NaN`,
modelled as `none`. -/
noncomputable def zCell (m s : Option ℝ) (c : Option ℝ) : Option ℝ :=
  match c, m, s with
  | some v, some mv, some sv => if sv = 0 then none else some ((v - mv) / sv)
  | _, _, _ => none

/-- The `clean` table of `compute_basket_zscores`:
`price_df.ffill().dropna(how="all")`. -/
def cleanOf (price_df : List (List (Option ℝ))) : List (List (Option ℝ)) :=
  (ffill price_df).filter keepRow

/-- `compute_basket_zscores` (src/signals.py): forward-fill, drop all-missing
rows, then per date subtract the cross-sectional mean and divide by the
cross-sectional sample standard deviation. -/
noncomputable def compute_basket_zscores (price_df : List (List (Option ℝ))) :
    List (List (Option ℝ)) :=
  (cleanOf price_df).map (fun r => r.map (fun c => zCell (rowMean r) (rowStd r) c))

/-- The raw entry indicator `(zscores < entry_thresh).astype(int)` for one
cell; a missing z-score compares as `False`, hence `0`. -/
def entryCell {α : Type} [LinearOrderedField α] (entry_thresh : α) (z : Option α) : ℤ :=
  match z with
  | some v => if v < entry_thresh then 1 else 0
  | none => 0

/-- The exit mask `pos[zscores > exit_thresh] = 0` for one cell; a missing
z-score compares as `False` and leaves the cell untouched. -/
def exitMaskCell {α : Type} [LinearOrderedField α] (exit_thresh : α)
    (z : Option α) (p : ℤ) : ℤ :=
  match z with
  | some v => if v > exit_thresh then 0 else p
  | none => p

/-- `generate_positions` (src/data_ingest.py): seed with the raw entry
indicator, zero out cells past the exit threshold, then
`.ffill().fillna(0)`. -/
def generate_positions {α : Type} [LinearOrderedField α]
    (zscores : List (List (Option α))) (entry_thresh exit_thresh : α) :
    List (List ℤ) :=
  (ffill
      ((List.zipWith
          (fun zr pr => List.zipWith (exitMaskCell exit_thresh) zr pr)
          zscores
          (zscores.map (fun r => r.map (entryCell entry_thresh)))).map
        (fun r => r.map (fun p => some p)))).map
    (fun r => r.map (fun c => c.getD 0))

/-- One cell of `pct_change`: `(cur - prev) / prev` when both are present,
`NaN` (`none`) otherwise (pandas with no padding of gaps). -/
def pctCell {α : Type} [LinearOrderedField α] (prev cur : Option α) : Option α :=
  match prev, cur with
  | some b, some a => some ((a - b) / b)
  | _, _ => none

/-- Combine every element with its predecessor, threaded from an initial
previous value: the shape shared by `pct_change` and `diff`. -/
def scanPairs {β γ : Type} (f : β → β → γ) (prev : β) : List β → List γ
  | [] => []
  | x :: xs => f prev x :: scanPairs f x xs

/-- `DataFrame.pct_change()`: first row all-`NaN`, then cellwise
`(cur - prev) / prev` against the previous date's row. -/
def pct_change {α : Type} [LinearOrderedField α] :
    List (List (Option α)) → List (List (Option α))
  | [] => []
  | r :: rs => r.map (fun _ => none) :: scanPairs (fun p c => List.zipWith pctCell p c) r rs

/-- `prices.pct_change().fillna(0)` of the backtest: per-instrument period
returns with every missing value replaced by `0`. -/
def daily_ret_of {α : Type} [LinearOrderedField α]
    (prices : List (List (Option α))) : List (List α) :=
  (pct_change prices).map (fun r => r.map (fun c => c.getD 0))

/-- `positions.shift(1).fillna(0)`: lag the position table by one date; the
first date's lagged row is all zeros. -/
def shifted_pos_of (positions : List (List ℤ)) : List (List ℤ) :=
  match positions with
  | [] => []
  | r :: rs => r.map (fun _ => 0) :: (r :: rs).dropLast

/-- `shifted_pos.sum(axis=1).replace(0, 1)`: open-position count per date
with zero replaced by one. -/
def n_open_of (positions : List (List ℤ)) : List ℤ :=
  (shifted_pos_of positions).map (fun r => if r.sum = 0 then 1 else r.sum)

/-- `(shifted_pos * daily_ret).sum(axis=1) / n_open`: gross strategy return
per date. -/
def gross_ret_of {α : Type} [LinearOrderedField α]
    (prices : List (List (Option α))) (positions : List (List ℤ)) : List α :=
  List.zipWith (fun num n => num / ((n : ℤ) : α))
    (List.zipWith
      (fun (sp : List ℤ) (dr : List α) =>
        (List.zipWith (fun s d => ((s : ℤ) : α) * d) sp dr).sum)
      (shifted_pos_of positions) (daily_ret_of prices))
    (n_open_of positions)

/-- `shifted_pos.diff().abs().sum(axis=1)`: turnover per date; the first
date's diff row is all-`NaN` and its skip-`NaN` sum is `0`. -/
def trades_of (positions : List (List ℤ)) : List ℤ :=
  match shifted_pos_of positions with
  | [] => []
  | r :: rs => 0 :: scanPairs (fun p c => (List.zipWith (fun a b => |a - b|) c p).sum) r rs

/-- `strat_ret - trades * cost_per_trade`: net strategy return per date. -/
def strat_ret_of {α : Type} [LinearOrderedField α]
    (prices : List (List (Option α))) (positions : List (List ℤ))
    (cost_per_trade : α) : List α :=
  List.zipWith (fun g (tr : ℤ) => g - ((tr : ℤ) : α) * cost_per_trade)
    (gross_ret_of prices positions) (trades_of positions)

/-- Running compounding `(1 + r).cumprod() - 1`, threading the product
accumulated so far. -/
def cumRet {α : Type} [LinearOrderedField α] (acc : α) : List α → List α
  | [] => []
  | x :: xs => (acc * (1 + x) - 1) :: cumRet (acc * (1 + x)) xs

/-- `(1 + strat_ret).cumprod() - 1`: cumulative strategy return. -/
def strat_cum_of {α : Type} [LinearOrderedField α]
    (prices : List (List (Option α))) (positions : List (List ℤ))
    (cost_per_trade : α) : List α :=
  cumRet 1 (strat_ret_of prices positions cost_per_trade)

/-- `backtest` (src/data_ingest.py): net period returns and the cumulative
return curve. -/
def backtest {α : Type} [LinearOrderedField α]
    (prices : List (List (Option α))) (positions : List (List ℤ))
    (cost_per_trade : α) : List α × List α :=
  (strat_ret_of prices positions cost_per_trade,
   strat_cum_of prices positions cost_per_trade)

/-- `Series.pct_change()` for a one-dimensional series. -/
def series_pct_change {α : Type} [LinearOrderedField α] :
    List (Option α) → List (Option α)
  | [] => []
  | x :: xs => none :: scanPairs pctCell x xs

/-- `df.mean(axis=1).pct_change().fillna(0)`: the benchmark period-return
series of the main pipeline. -/
def bench_ret_of {α : Type} [LinearOrderedField α]
    (df : List (List (Option α))) : List α :=
  (series_pct_change (df.map rowMean)).map (fun c => c.getD 0)

/-- The equal-weighted cross-sectional average of the instruments' raw
period returns.  Modelled from the spec wording ("equal-weighted
cross-sectional average over all instruments of each instrument's raw
period-over-period price return, with the first date's value zero"), for
comparison with the source's `bench_ret_of`. -/
def spec_bench_ret {α : Type} [LinearOrderedField α]
    (df : List (List (Option α))) : List α :=
  (pct_change df).map (fun r => (rowMean r).getD 0)

/-- Concrete scenario table of the spec (used for C5): instruments A, B
with prices A = [90, 100, 110] and B = [110, 100, 90] on three dates. -/
def c5prices : List (List (Option ℝ)) :=
  [[some 90, some 110], [some 100, some 100], [some 110, some 90]]

/-- Concrete scenario table of the spec (used for C6): two instruments with
constant equal prices [100, 100] on two dates. -/
def c6prices : List (List (Option ℝ)) :=
  [[some 100, some 100], [some 100, some 100]]

/-- First price table of the two-run comparison (used for C2): three
instruments on two dates with constant prices. -/
def c2pricesP : List (List (Option ℝ)) :=
  [[some 92, some 103, some 105], [some 92, some 103, some 105]]

/-- Second price table of the two-run comparison (used for C2): identical
to the first except that instrument A's price at the second date is 115
instead of 92. -/
def c2pricesQ : List (List (Option ℝ)) :=
  [[some 92, some 103, some 105], [some 115, some 103, some 105]]

/-- The positions of the main pipeline: `generate_positions(zs)` on the
z-scores of the price table, with the default thresholds `-1.0`, `0.0`. -/
noncomputable def main_positions (df : List (List (Option ℝ))) : List (List ℤ) :=
  generate_positions (compute_basket_zscores df) (-1) 0

/-- The strategy period-return series of the main pipeline:
`backtest(df, generate_positions(compute_basket_zscores(df)))` with the
default cost of 0.0005 per unit of turnover. -/
noncomputable def main_strat_ret (df : List (List (Option ℝ))) : List ℝ :=
  (backtest df (main_positions df) (5 / 10000)).1

/-! ### General lemmas about the table operations -/

lemma zipWith_getElem?_some {β γ δ : Type} (f : β → γ → δ) :
    ∀ (as : List β) (bs : List γ) (i : ℕ) (a : β) (b : γ),
      as[i]? = some a → bs[i]? = some b →
      (List.zipWith f as bs)[i]? = some (f a b) := by
  intro as
  induction as with
  | nil => intro bs i a b ha _; simp at ha
  | cons x xs ih =>
    intro bs i a b ha hb
    cases bs with
    | nil => simp at hb
    | cons y ys =>
      cases i with
      | zero => simp_all
      | succ j => simpa using ih ys j a b (by simpa using ha) (by simpa using hb)

lemma zipWith_getElem?_inv {β γ δ : Type} (f : β → γ → δ) :
    ∀ (as : List β) (bs : List γ) (i : ℕ) (c : δ),
      (List.zipWith f as bs)[i]? = some c →
      ∃ a b, as[i]? = some a ∧ bs[i]? = some b ∧ c = f a b := by
  intro as
  induction as with
  | nil => intro bs i c hc; simp at hc
  | cons x xs ih =>
    intro bs i c hc
    cases bs with
    | nil => simp at hc
    | cons y ys =>
      cases i with
      | zero =>
        refine ⟨x, y, by simp, by simp, ?_⟩
        simpa using hc.symm
      | succ j =>
        obtain ⟨a, b, ha, hb, hab⟩ := ih ys j c (by simpa using hc)
        exact ⟨a, b, by simpa using ha, by simpa using hb, hab⟩

lemma zipWith_fillCell_map_some {β : Type} :
    ∀ (r : List β) (prev : List (Option β)), r.length ≤ prev.length →
      List.zipWith fillCell prev (r.map some) = r.map some := by
  intro r
  induction r with
  | nil => intro prev _; simp
  | cons x xs ih =>
    intro prev h
    cases prev with
    | nil => simp at h
    | cons p ps =>
      simp only [List.map_cons, List.zipWith_cons_cons]
      rw [ih ps (by simpa using h)]
      rfl

lemma ffillAux_map_some {β : Type} :
    ∀ (X : List (List β)) (prev : List (Option β)) (m : ℕ),
      (∀ r ∈ X, r.length = m) → m ≤ prev.length →
      ffillAux prev (X.map (fun r => r.map some)) = X.map (fun r => r.map some) := by
  intro X
  induction X with
  | nil => intro prev m _ _; rfl
  | cons r rs ih =>
    intro prev m hm hp
    have hr : r.length = m := hm r (by simp)
    have h1 : List.zipWith fillCell prev (r.map some) = r.map some :=
      zipWith_fillCell_map_some r prev (by omega)
    simp only [List.map_cons, ffillAux, h1]
    rw [ih (r.map some) m (fun t ht => hm t (by simp [ht])) (by simp [hr])]

lemma ffill_map_some {β : Type} (X : List (List β)) (m : ℕ)
    (hm : ∀ r ∈ X, r.length = m) :
    ffill (X.map (fun r => r.map some)) = X.map (fun r => r.map some) := by
  cases X with
  | nil => rfl
  | cons r rs =>
    simp only [List.map_cons, ffill]
    rw [ffillAux_map_some rs (r.map some) m (fun t ht => hm t (by simp [ht]))
      (by simp [hm r (by simp)])]

/-- With uniform row widths, the `ffill` and `fillna(0)` at the end of
`generate_positions` are no-ops: the seeded table is already integer-valued
with no missing cells, so the output is just the cellwise entry indicator
masked by the exit threshold, with no dependence on other dates. -/
lemma generate_positions_eq {α : Type} [LinearOrderedField α]
    (zscores : List (List (Option α))) (entry_thresh exit_thresh : α) (m : ℕ)
    (hm : ∀ r ∈ zscores, r.length = m) :
    generate_positions zscores entry_thresh exit_thresh =
      zscores.map (fun r => r.map
        (fun z => exitMaskCell exit_thresh z (entryCell entry_thresh z))) := by
  unfold generate_positions
  rw [List.zipWith_map_right, List.zipWith_same]
  have hrow : ∀ r ∈ zscores,
      List.zipWith (exitMaskCell exit_thresh) r (r.map (entryCell entry_thresh)) =
        r.map (fun z => exitMaskCell exit_thresh z (entryCell entry_thresh z)) := by
    intro r _
    rw [List.zipWith_map_right, List.zipWith_same]
  rw [List.map_eq_map_iff.mpr hrow]
  rw [show (zscores.map (fun r => r.map
        (fun z => exitMaskCell exit_thresh z (entryCell entry_thresh z)))).map
        (fun r => r.map (fun p => some p)) =
      (zscores.map (fun r => r.map
        (fun z => exitMaskCell exit_thresh z (entryCell entry_thresh z)))).map
        (fun r => r.map some) from rfl]
  rw [ffill_map_some (zscores.map (fun r => r.map
        (fun z => exitMaskCell exit_thresh z (entryCell entry_thresh z)))) m
      (by intro t ht
          obtain ⟨r, hr, rfl⟩ := List.mem_map.mp ht
          simpa using hm r hr)]
  simp [List.map_map, Function.comp]

/-! ### C1: the hysteresis claim against the code -/

/-- C1: evaluation of `generate_positions` at the failing input.  One
instrument with z-scores `[-3/2, -1/2]` under `entry_thresh = -1`,
`exit_thresh = 0`: after the entry at the first date the second date's
z-score lies strictly between the thresholds, so the spec's hysteresis
requires the position to persist at 1; the code instead yields 0 because
the seeded entry-indicator table has no missing cells, making the
`ffill().fillna(0)` forward-fill a no-op (no state is ever carried). -/
theorem C1_code_no_hysteresis_eval :
    generate_positions [[some ((-3 : ℚ) / 2)], [some (-1 / 2)]] (-1) 0 = [[1], [0]] := by
  norm_num [generate_positions, ffill, ffillAux, fillCell, entryCell, exitMaskCell]

/-! ### C8: positions are total 0/1 tables -/

/-- C8: for every z-score table (of uniform row width), the table returned
by `generate_positions` has the same number of rows, every cell is the
integer 0 or 1 (the output type is total, so there are no undefined cells),
and any cell whose z-score is undefined yields 0 — in the code this holds
even when a prior held state exists, which implies the claim's weaker
"absent a prior held state" form. -/
theorem C8_positions_zero_one {α : Type} [LinearOrderedField α]
    (zscores : List (List (Option α))) (entry_thresh exit_thresh : α) (m : ℕ)
    (hm : ∀ r ∈ zscores, r.length = m) :
    (generate_positions zscores entry_thresh exit_thresh).length = zscores.length ∧
    (∀ row ∈ generate_positions zscores entry_thresh exit_thresh,
      ∀ x ∈ row, x = 0 ∨ x = 1) ∧
    (∀ (t i : ℕ) (zrow : List (Option α)), zscores[t]? = some zrow →
      zrow[i]? = some none →
      ∃ row : List ℤ,
        (generate_positions zscores entry_thresh exit_thresh)[t]? = some row ∧
        row[i]? = some 0) := by
  rw [generate_positions_eq zscores entry_thresh exit_thresh m hm]
  refine ⟨by simp, ?_, ?_⟩
  · intro row hrow x hx
    obtain ⟨r, _, rfl⟩ := List.mem_map.mp hrow
    obtain ⟨z, _, rfl⟩ := List.mem_map.mp hx
    cases z with
    | none => left; rfl
    | some v =>
      unfold exitMaskCell entryCell
      by_cases h1 : v > exit_thresh
      · simp [h1]
      · by_cases h2 : v < entry_thresh <;> simp [h1, h2]
  · intro t i zrow ht hi
    refine ⟨zrow.map (fun z => exitMaskCell exit_thresh z (entryCell entry_thresh z)),
      ?_, ?_⟩
    · rw [List.getElem?_map, ht]; rfl
    · rw [List.getElem?_map, hi]; rfl

/-- C8 witness: the theorem applied at a concrete z-score table containing
both defined and undefined cells. -/
theorem C8_positions_zero_one_witness :
    (generate_positions [[some (-2 : ℚ), none], [none, some (1 / 2)]] (-1) 0).length =
      ([[some (-2 : ℚ), none], [none, some (1 / 2)]] :
        List (List (Option ℚ))).length ∧
    (∀ row ∈ generate_positions [[some (-2 : ℚ), none], [none, some (1 / 2)]] (-1) 0,
      ∀ x ∈ row, x = 0 ∨ x = 1) ∧
    (∀ (t i : ℕ) (zrow : List (Option ℚ)),
      ([[some (-2 : ℚ), none], [none, some (1 / 2)]] :
        List (List (Option ℚ)))[t]? = some zrow → zrow[i]? = some none →
      ∃ row : List ℤ,
        (generate_positions [[some (-2 : ℚ), none], [none, some (1 / 2)]]
          (-1) 0)[t]? = some row ∧ row[i]? = some 0) :=
  C8_positions_zero_one [[some (-2 : ℚ), none], [none, some (1 / 2)]] (-1) 0 2
    (by decide)

/-! ### Indexing lemmas for the pair-scan operations -/

lemma scanPairs_getElem?_zero {β γ : Type} (f : β → β → γ) (p : β) (xs : List β) :
    (scanPairs f p xs)[0]? = (xs[0]?).map (f p) := by
  cases xs <;> simp [scanPairs]

lemma scanPairs_getElem?_succ {β γ : Type} (f : β → β → γ) :
    ∀ (xs : List β) (p : β) (t : ℕ) (a b : β),
      xs[t]? = some a → xs[t + 1]? = some b →
      (scanPairs f p xs)[t + 1]? = some (f a b) := by
  intro xs
  induction xs with
  | nil => intro p t a b ha _; simp at ha
  | cons x l ih =>
    intro p t a b ha hb
    cases t with
    | zero =>
      obtain rfl : x = a := by simpa using ha
      have hb2 : l[0]? = some b := by simpa using hb
      simp only [scanPairs, List.getElem?_cons_succ]
      rw [scanPairs_getElem?_zero, hb2]
      rfl
    | succ k =>
      simp only [scanPairs, List.getElem?_cons_succ]
      exact ih x k a b (by simpa using ha) (by simpa using hb)

lemma pct_change_getElem?_succ {α : Type} [LinearOrderedField α]
    (prices : List (List (Option α))) (t : ℕ) (rt rt1 : List (Option α))
    (h1 : prices[t]? = some rt) (h2 : prices[t + 1]? = some rt1) :
    (pct_change prices)[t + 1]? = some (List.zipWith pctCell rt rt1) := by
  cases prices with
  | nil => simp at h1
  | cons r rs =>
    cases t with
    | zero =>
      obtain rfl : r = rt := by simpa using h1
      have h3 : rs[0]? = some rt1 := by simpa using h2
      simp only [pct_change, List.getElem?_cons_succ]
      rw [scanPairs_getElem?_zero, h3]
      rfl
    | succ k =>
      simp only [pct_change, List.getElem?_cons_succ]
      exact scanPairs_getElem?_succ _ rs r k rt rt1 (by simpa using h1)
        (by simpa using h2)

lemma series_pct_change_getElem?_succ {α : Type} [LinearOrderedField α]
    (xs : List (Option α)) (t : ℕ) (a b : Option α)
    (h1 : xs[t]? = some a) (h2 : xs[t + 1]? = some b) :
    (series_pct_change xs)[t + 1]? = some (pctCell a b) := by
  cases xs with
  | nil => simp at h1
  | cons x l =>
    cases t with
    | zero =>
      obtain rfl : x = a := by simpa using h1
      have h3 : l[0]? = some b := by simpa using h2
      simp only [series_pct_change, List.getElem?_cons_succ]
      rw [scanPairs_getElem?_zero, h3]
      rfl
    | succ k =>
      simp only [series_pct_change, List.getElem?_cons_succ]
      exact scanPairs_getElem?_succ _ l x k a b (by simpa using h1)
        (by simpa using h2)

/-! ### C10: missing prices give zero period returns in the backtest -/

/-- C10: for every price table and every instrument and date where the
price or its prior price is missing, the period return used by the backtest
is exactly 0 (never undefined): `pct_change` produces a missing value there
and `fillna(0)` replaces it by 0, so a held instrument with a missing price
contributes zero to the gross strategy return. -/
theorem C10_missing_price_gives_zero_return {α : Type} [LinearOrderedField α]
    (prices : List (List (Option α))) (t i : ℕ) (rt rt1 : List (Option α))
    (h1 : prices[t]? = some rt) (h2 : prices[t + 1]? = some rt1)
    (hi : i < rt.length) (hi1 : i < rt1.length)
    (hmiss : rt[i]? = some none ∨ rt1[i]? = some none) :
    ∃ row : List α, (daily_ret_of prices)[t + 1]? = some row ∧ row[i]? = some 0 := by
  have hp := pct_change_getElem?_succ prices t rt rt1 h1 h2
  refine ⟨(List.zipWith pctCell rt rt1).map (fun c => c.getD 0), ?_, ?_⟩
  · unfold daily_ret_of
    rw [List.getElem?_map, hp]
    rfl
  · obtain ⟨a, ha⟩ : ∃ a, rt[i]? = some a :=
      ⟨rt[i], (List.getElem?_eq_some_getElem_iff rt i hi).mpr trivial⟩
    obtain ⟨b, hb⟩ : ∃ b, rt1[i]? = some b :=
      ⟨rt1[i], (List.getElem?_eq_some_getElem_iff rt1 i hi1).mpr trivial⟩
    have hz := zipWith_getElem?_some pctCell rt rt1 i a b ha hb
    rw [List.getElem?_map, hz]
    rcases hmiss with hm | hm
    · rw [ha] at hm
      obtain rfl : a = none := by simpa using hm
      simp [pctCell]
    · rw [hb] at hm
      obtain rfl : b = none := by simpa using hm
      cases a <;> simp [pctCell]

/-- C10 witness: a table whose second instrument is missing on both dates;
its period return at the second date is 0. -/
theorem C10_missing_price_gives_zero_return_witness :
    ∃ row : List ℚ,
      (daily_ret_of [[some (100 : ℚ), none], [some 110, none]])[0 + 1]? = some row ∧
      row[1]? = some 0 :=
  C10_missing_price_gives_zero_return [[some (100 : ℚ), none], [some 110, none]]
    0 1 [some 100, none] [some 110, none] (by simp) (by simp) (by norm_num)
    (by norm_num) (Or.inl (by simp))

/-! ### C9: everything is zero at the first date -/

lemma zipWith_zero_sum {β γ M : Type} [AddCommMonoid M] :
    ∀ (l : List β) (l2 : List γ), (List.zipWith (fun _ _ => (0 : M)) l l2).sum = 0 := by
  intro l
  induction l with
  | nil => intro l2; rfl
  | cons x xs ih =>
    intro l2
    cases l2 with
    | nil => rfl
    | cons y ys => simpa using ih ys

/-- C9: for every prices-and-positions input to the backtest, at the first
date the per-instrument period returns are all 0, the turnover is 0, the
net strategy return is 0 and the cumulative return is exactly 0. -/
theorem C9_first_date_zero {α : Type} [LinearOrderedField α]
    (prices : List (List (Option α))) (positions : List (List ℤ))
    (cost_per_trade : α) (p : List (Option α)) (ps : List (List (Option α)))
    (q : List ℤ) (qs : List (List ℤ))
    (hp : prices = p :: ps) (hq : positions = q :: qs) :
    (daily_ret_of prices)[0]? = some (p.map (fun _ => 0)) ∧
    (trades_of positions)[0]? = some 0 ∧
    ((backtest prices positions cost_per_trade).1)[0]? = some 0 ∧
    ((backtest prices positions cost_per_trade).2)[0]? = some 0 := by
  subst hp hq
  have hdaily : daily_ret_of (p :: ps) =
      (p.map (fun _ => 0)) :: (scanPairs (fun a c => List.zipWith pctCell a c) p ps).map
        (fun r => r.map (fun c => c.getD 0)) := by
    simp [daily_ret_of, pct_change, List.map_map, Function.comp]
  have hshift : shifted_pos_of (q :: qs) = (q.map (fun _ => 0)) :: (q :: qs).dropLast := by
    rfl
  have hsum0 : (q.map (fun _ => (0 : ℤ))).sum = 0 :=
    List.sum_eq_zero (by intro x hx; obtain ⟨_, _, rfl⟩ := List.mem_map.mp hx; rfl)
  have hdot : (List.zipWith (fun s d => ((s : ℤ) : α) * d) (q.map (fun _ => 0))
      (p.map (fun _ => 0))).sum = 0 := by
    rw [List.zipWith_map_left, List.zipWith_map_right]
    have h0 : (List.zipWith (fun (_ : ℤ) (_ : Option α) =>
        (((0 : ℤ) : ℤ) : α) * (0 : α)) q p) =
        List.zipWith (fun (_ : ℤ) (_ : Option α) => (0 : α)) q p := by
      simp
    rw [h0]
    exact zipWith_zero_sum q p
  have hgross : (gross_ret_of (p :: ps) (q :: qs))[0]? = some 0 := by
    unfold gross_ret_of n_open_of
    rw [hdaily, hshift]
    simp only [List.map_cons, List.zipWith_cons_cons, List.getElem?_cons_zero,
      hsum0, if_pos rfl]
    rw [hdot]
    simp
  have htr : trades_of (q :: qs) =
      0 :: scanPairs (fun a c => (List.zipWith (fun x y => |x - y|) c a).sum)
        (q.map (fun _ => 0)) ((q :: qs).dropLast) := by
    rfl
  have hstrat : (strat_ret_of (p :: ps) (q :: qs) cost_per_trade)[0]? = some 0 := by
    unfold strat_ret_of
    rw [zipWith_getElem?_some _ _ _ 0 0 0 hgross (by rw [htr]; simp)]
    norm_num
  refine ⟨by rw [hdaily]; simp, by rw [htr]; simp, hstrat, ?_⟩
  show (strat_cum_of (p :: ps) (q :: qs) cost_per_trade)[0]? = some 0
  unfold strat_cum_of
  obtain ⟨v, vs, hv⟩ : ∃ v vs, strat_ret_of (p :: ps) (q :: qs) cost_per_trade = v :: vs := by
    rcases h : strat_ret_of (p :: ps) (q :: qs) cost_per_trade with _ | ⟨v, vs⟩
    · rw [h] at hstrat; simp at hstrat
    · exact ⟨v, vs, rfl⟩
  have hv0 : v = 0 := by
    rw [hv] at hstrat; simpa using hstrat
  rw [hv, hv0]
  simp [cumRet]

/-- C9 witness: the theorem applied to a concrete two-date table. -/
theorem C9_first_date_zero_witness :
    (daily_ret_of [[some (100 : ℚ)], [some 110]])[0]? = some ([some (100 : ℚ)].map (fun _ => 0)) ∧
    (trades_of [[1], [0]])[0]? = some 0 ∧
    ((backtest [[some (100 : ℚ)], [some 110]] [[1], [0]] (5 / 10000)).1)[0]? = some 0 ∧
    ((backtest [[some (100 : ℚ)], [some 110]] [[1], [0]] (5 / 10000)).2)[0]? = some 0 :=
  C9_first_date_zero [[some (100 : ℚ)], [some 110]] [[1], [0]] (5 / 10000)
    [some 100] [[some 110]] [1] [[0]] rfl rfl

/-! ### C7: the gross-return divisor is always safe -/

lemma mem_shifted_pos_of_01 (positions : List (List ℤ))
    (h01 : ∀ r ∈ positions, ∀ x ∈ r, x = 0 ∨ x = 1) :
    ∀ r ∈ shifted_pos_of positions, ∀ x ∈ r, x = 0 ∨ x = 1 := by
  intro r hr
  cases positions with
  | nil => simp [shifted_pos_of] at hr
  | cons q qs =>
    simp only [shifted_pos_of] at hr
    rcases List.mem_cons.mp hr with h | h
    · subst h
      intro x hx
      obtain ⟨_, _, rfl⟩ := List.mem_map.mp hx
      left; rfl
    · exact h01 r (List.dropLast_subset _ h)

lemma sum_nonneg_01 : ∀ (r : List ℤ), (∀ x ∈ r, x = 0 ∨ x = 1) → 0 ≤ r.sum := by
  intro r
  induction r with
  | nil => intro _; simp
  | cons x xs ih =>
    intro h
    have hx := h x (by simp)
    have hxs := ih (fun y hy => h y (by simp [hy]))
    simp only [List.sum_cons]
    omega

lemma sum_zero_01 : ∀ (r : List ℤ), (∀ x ∈ r, x = 0 ∨ x = 1) → r.sum = 0 →
    ∀ x ∈ r, x = 0 := by
  intro r
  induction r with
  | nil => intro _ _ x hx; simp at hx
  | cons y ys ih =>
    intro h hsum x hx
    have hy := h y (by simp)
    have hys : 0 ≤ ys.sum := sum_nonneg_01 ys (fun z hz => h z (by simp [hz]))
    simp only [List.sum_cons] at hsum
    rcases List.mem_cons.mp hx with rfl | hx2
    · omega
    · exact ih (fun z hz => h z (by simp [hz])) (by omega) x hx2

lemma dot_zero_left {α : Type} [LinearOrderedField α] :
    ∀ (sp : List ℤ) (dr : List α), (∀ x ∈ sp, x = 0) →
      (List.zipWith (fun s d => ((s : ℤ) : α) * d) sp dr).sum = 0 := by
  intro sp
  induction sp with
  | nil => intro dr _; simp
  | cons s ss ih =>
    intro dr h
    cases dr with
    | nil => simp
    | cons d ds =>
      have hs : s = 0 := h s (by simp)
      simp only [List.zipWith_cons_cons, List.sum_cons, hs]
      rw [ih ds (fun z hz => h z (by simp [hz]))]
      norm_num

/-- C7: with indicator (0/1) positions, the divisor of the gross strategy
return is the lagged open-position count with zero replaced by 1, it is
always strictly positive (so the division is well-defined), and on any date
where the substitution applies (lagged positions sum to zero) the gross
strategy return is exactly 0. -/
theorem C7_divisor_safe {α : Type} [LinearOrderedField α]
    (prices : List (List (Option α))) (positions : List (List ℤ))
    (h01 : ∀ r ∈ positions, ∀ x ∈ r, x = 0 ∨ x = 1) :
    (∀ (t : ℕ) (srow : List ℤ), (shifted_pos_of positions)[t]? = some srow →
      (n_open_of positions)[t]? = some (if srow.sum = 0 then 1 else srow.sum) ∧
      0 < (if srow.sum = 0 then 1 else srow.sum)) ∧
    (∀ (t : ℕ) (srow : List ℤ) (g : α),
      (shifted_pos_of positions)[t]? = some srow → srow.sum = 0 →
      (gross_ret_of prices positions)[t]? = some g → g = 0) := by
  constructor
  · intro t srow hs
    refine ⟨by unfold n_open_of; rw [List.getElem?_map, hs]; rfl, ?_⟩
    have hmem := mem_shifted_pos_of_01 positions h01 srow (List.getElem?_mem hs)
    have hnn := sum_nonneg_01 srow hmem
    by_cases h0 : srow.sum = 0
    · simp [h0]
    · simp only [if_neg h0]; omega
  · intro t srow g hs hsum hg
    unfold gross_ret_of at hg
    obtain ⟨num, n, hnum, hn, hgv⟩ := zipWith_getElem?_inv _ _ _ _ _ hg
    obtain ⟨sp, dr, hsp, hdr, hnumv⟩ := zipWith_getElem?_inv _ _ _ _ _ hnum
    rw [hs] at hsp
    obtain rfl : srow = sp := by simpa using hsp
    have hmem := mem_shifted_pos_of_01 positions h01 srow (List.getElem?_mem hs)
    have hall := sum_zero_01 srow hmem hsum
    rw [hgv, hnumv]
    rw [dot_zero_left srow dr hall]
    simp

/-- C7 witness: the theorem applied to a concrete two-date input whose
first lagged row is empty of open positions. -/
theorem C7_divisor_safe_witness :
    ((n_open_of [[0], [1]])[0]? =
        some (if ([0] : List ℤ).sum = 0 then 1 else ([0] : List ℤ).sum) ∧
      0 < (if ([0] : List ℤ).sum = 0 then 1 else ([0] : List ℤ).sum)) ∧
    (0 : ℚ) = 0 := by
  have h := C7_divisor_safe ([[some (1 : ℚ)], [some 2]]) [[0], [1]] (by decide)
  refine ⟨h.1 0 [0] (by simp [shifted_pos_of]), ?_⟩
  refine h.2 0 [0] 0 (by simp [shifted_pos_of]) (by norm_num) ?_
  norm_num [gross_ret_of, n_open_of, shifted_pos_of, daily_ret_of, pct_change,
    scanPairs, pctCell]

/-! ### C3: the benchmark return series -/

/-- C3 counterexample: the source's benchmark is the percentage change of
the cross-sectional mean price, which differs from the equal-weighted mean
of the instruments' percentage changes.  With prices `[1, 100]` then
`[2, 100]` the former is `1/101` at the second date while the latter is
`1/2`. -/
theorem C3_counterexample :
    bench_ret_of [[some (1 : ℚ), some 100], [some 2, some 100]] ≠
      spec_bench_ret [[some (1 : ℚ), some 100], [some 2, some 100]] := by
  have h1 : bench_ret_of [[some (1 : ℚ), some 100], [some 2, some 100]] =
      [0, 1 / 101] := by
    norm_num [bench_ret_of, series_pct_change, scanPairs, rowMean, rowPresent,
      pctCell, List.filterMap_cons]
  have h2 : spec_bench_ret [[some (1 : ℚ), some 100], [some 2, some 100]] =
      [0, 1 / 2] := by
    norm_num [spec_bench_ret, pct_change, scanPairs, rowMean, rowPresent,
      pctCell, List.filterMap_cons]
    simp
  rw [h1, h2]
  simp

/-- C3 amended: the benchmark period-return series is, at every date with a
prior date, the period-over-period percentage change of the equal-weighted
cross-sectional average price (a price-weighted index of the mean price),
and its first value is 0. -/
theorem C3_bench_is_pct_of_mean_price {α : Type} [LinearOrderedField α]
    (df : List (List (Option α))) (t : ℕ) (r r2 : List (Option α)) (a b : α)
    (h1 : df[t]? = some r) (h2 : df[t + 1]? = some r2)
    (hm : rowMean r = some a) (hm2 : rowMean r2 = some b) :
    (bench_ret_of df)[t + 1]? = some ((b - a) / a) ∧
    (bench_ret_of df)[0]? = some 0 := by
  constructor
  · have hx1 : (df.map rowMean)[t]? = some (some a) := by
      rw [List.getElem?_map, h1]; simp [hm]
    have hx2 : (df.map rowMean)[t + 1]? = some (some b) := by
      rw [List.getElem?_map, h2]; simp [hm2]
    have hser := series_pct_change_getElem?_succ (df.map rowMean) t (some a)
      (some b) hx1 hx2
    unfold bench_ret_of
    rw [List.getElem?_map, hser]
    rfl
  · cases df with
    | nil => simp at h1
    | cons d ds =>
      unfold bench_ret_of
      simp [series_pct_change]

/-- C3 witness: the amended theorem applied to the concrete table with
prices `[1, 100]` then `[2, 100]`, where the mean prices are `101/2` and
`51`. -/
theorem C3_bench_is_pct_of_mean_price_witness :
    (bench_ret_of [[some (1 : ℚ), some 100], [some 2, some 100]])[0 + 1]? =
      some ((51 - 101 / 2) / (101 / 2)) ∧
    (bench_ret_of [[some (1 : ℚ), some 100], [some 2, some 100]])[0]? = some 0 :=
  C3_bench_is_pct_of_mean_price [[some (1 : ℚ), some 100], [some 2, some 100]]
    0 [some 1, some 100] [some 2, some 100] (101 / 2) 51 (by simp) (by simp)
    (by norm_num [rowMean, rowPresent, List.filterMap_cons])
    (by norm_num [rowMean, rowPresent, List.filterMap_cons])

/-! ### C4: behaviour on tables with no usable rows -/

lemma zipWith_fillCell_none {β : Type} :
    ∀ (r prev : List (Option β)), (∀ c ∈ prev, c = none) → (∀ c ∈ r, c = none) →
      ∀ c ∈ List.zipWith fillCell prev r, c = none := by
  intro r
  induction r with
  | nil => intro prev _ _ c hc; simp at hc
  | cons x xs ih =>
    intro prev hprev hr c hc
    cases prev with
    | nil => simp at hc
    | cons p ps =>
      simp only [List.zipWith_cons_cons] at hc
      rcases List.mem_cons.mp hc with rfl | hc2
      · have hx : x = none := hr x (by simp)
        have hp : p = none := hprev p (by simp)
        rw [hx, hp]; rfl
      · exact ih ps (fun z hz => hprev z (by simp [hz]))
          (fun z hz => hr z (by simp [hz])) c hc2

lemma ffillAux_all_none {β : Type} :
    ∀ (X : List (List (Option β))) (prev : List (Option β)),
      (∀ c ∈ prev, c = none) → (∀ r ∈ X, ∀ c ∈ r, c = none) →
      ∀ r ∈ ffillAux prev X, ∀ c ∈ r, c = none := by
  intro X
  induction X with
  | nil => intro prev _ _ r hr; simp [ffillAux] at hr
  | cons y ys ih =>
    intro prev hprev hX r hr
    simp only [ffillAux] at hr
    have hy : ∀ c ∈ List.zipWith fillCell prev y, c = none :=
      zipWith_fillCell_none y prev hprev (hX y (by simp))
    rcases List.mem_cons.mp hr with rfl | hr2
    · exact hy
    · exact ih (List.zipWith fillCell prev y) hy
        (fun z hz => hX z (by simp [hz])) r hr2

lemma ffill_all_none {β : Type} (X : List (List (Option β)))
    (h : ∀ r ∈ X, ∀ c ∈ r, c = none) :
    ∀ r ∈ ffill X, ∀ c ∈ r, c = none := by
  cases X with
  | nil => intro r hr; simp [ffill] at hr
  | cons y ys =>
    intro r hr
    simp only [ffill] at hr
    rcases List.mem_cons.mp hr with rfl | hr2
    · exact h r (by simp)
    · exact ffillAux_all_none ys y (h y (by simp))
        (fun z hz => h z (by simp [hz])) r hr2

/-- C4 counterexample: on a table whose rows are entirely missing (and on
the empty table), `compute_basket_zscores` silently returns the degenerate
empty z-score table instead of raising: the core has no empty-input check
(only the out-of-scope ingestion collaborator `fetch_price_series` raises
on an empty download). -/
theorem C4_counterexample :
    compute_basket_zscores [[none], [none]] = [] ∧
    compute_basket_zscores [] = [] := by
  constructor
  · simp [compute_basket_zscores, cleanOf, ffill, ffillAux, fillCell, keepRow]
  · rfl

/-- C4 amended: for every price table with no usable rows (every cell of
every row missing, hence also after gap-filling), `compute_basket_zscores`
returns the empty table — it degrades silently rather than failing fast. -/
theorem C4_empty_input_returns_empty (P : List (List (Option ℝ)))
    (h : ∀ r ∈ P, ∀ c ∈ r, c = none) :
    compute_basket_zscores P = [] := by
  unfold compute_basket_zscores cleanOf
  have hfil : (ffill P).filter keepRow = [] := by
    refine List.filter_eq_nil_iff.mpr ?_
    intro r hr
    have hall := ffill_all_none P h r hr
    simp only [keepRow, List.any_eq_true, not_exists]
    rintro c ⟨hc, hs⟩
    rw [hall c hc] at hs
    simp at hs
  rw [hfil]
  rfl

/-- C4 witness: the amended theorem applied to a two-date table with one
instrument that is always missing. -/
theorem C4_empty_input_returns_empty_witness :
    compute_basket_zscores [[none], [none]] = [] :=
  C4_empty_input_returns_empty [[none], [none]] (by simp)

/-! ### C5: the two-instrument three-date scenario -/

lemma sqrt_two_pos : (0 : ℝ) < Real.sqrt 2 :=
  Real.sqrt_pos.mpr (by norm_num)

lemma sqrt_two_lt_two : Real.sqrt 2 < 2 := by
  rw [Real.sqrt_lt' (by norm_num)]
  norm_num

lemma sqrt_200_eq : Real.sqrt 200 = 10 * Real.sqrt 2 := by
  rw [show (200 : ℝ) = (10 * Real.sqrt 2) ^ 2 by
    rw [mul_pow, Real.sq_sqrt] <;> norm_num]
  exact Real.sqrt_sq (by positivity)

lemma rowMean_90_110 : rowMean [some (90 : ℝ), some 110] = some 100 := by
  norm_num [rowMean, rowPresent, List.filterMap_cons]

lemma rowMean_110_90 : rowMean [some (110 : ℝ), some 90] = some 100 := by
  norm_num [rowMean, rowPresent, List.filterMap_cons]

lemma rowMean_100_100 : rowMean [some (100 : ℝ), some 100] = some 100 := by
  norm_num [rowMean, rowPresent, List.filterMap_cons]

lemma rowStd_90_110 : rowStd [some (90 : ℝ), some 110] = some (10 * Real.sqrt 2) := by
  norm_num [rowStd, rowPresent, List.filterMap_cons]
  exact sqrt_200_eq

lemma rowStd_110_90 : rowStd [some (110 : ℝ), some 90] = some (10 * Real.sqrt 2) := by
  norm_num [rowStd, rowPresent, List.filterMap_cons]
  exact sqrt_200_eq

lemma rowStd_100_100 : rowStd [some (100 : ℝ), some 100] = some 0 := by
  norm_num [rowStd, rowPresent, List.filterMap_cons]

lemma zCell_at_90 :
    zCell (some 100) (some (10 * Real.sqrt 2)) (some 90) =
      some (-(Real.sqrt 2) / 2) := by
  have hne : (10 : ℝ) * Real.sqrt 2 ≠ 0 := by positivity
  have h : Real.sqrt 2 * Real.sqrt 2 = 2 := Real.mul_self_sqrt (by norm_num)
  simp only [zCell, if_neg hne]
  congr 1
  have h2 : Real.sqrt 2 ≠ 0 := by positivity
  field_simp
  nlinarith [h]

lemma zCell_at_110 :
    zCell (some 100) (some (10 * Real.sqrt 2)) (some 110) =
      some (Real.sqrt 2 / 2) := by
  have hne : (10 : ℝ) * Real.sqrt 2 ≠ 0 := by positivity
  have h : Real.sqrt 2 * Real.sqrt 2 = 2 := Real.mul_self_sqrt (by norm_num)
  simp only [zCell, if_neg hne]
  congr 1
  have h2 : Real.sqrt 2 ≠ 0 := by positivity
  field_simp
  nlinarith [h]

lemma zCell_zero_std (m c : Option ℝ) : zCell m (some 0) c = none := by
  cases c <;> cases m <;> simp [zCell]

lemma clean_c5 : cleanOf c5prices = c5prices := by
  simp [cleanOf, c5prices, ffill, ffillAux, fillCell, keepRow]

lemma zs_c5 : compute_basket_zscores c5prices =
    [[some (-(Real.sqrt 2) / 2), some (Real.sqrt 2 / 2)],
     [none, none],
     [some (Real.sqrt 2 / 2), some (-(Real.sqrt 2) / 2)]] := by
  unfold compute_basket_zscores
  rw [clean_c5]
  show ([[some 90, some 110], [some 100, some 100], [some 110, some 90]] :
      List (List (Option ℝ))).map
        (fun r => r.map (fun c => zCell (rowMean r) (rowStd r) c)) = _
  simp only [List.map_cons, List.map_nil, rowMean_90_110, rowMean_110_90,
    rowMean_100_100, rowStd_90_110, rowStd_110_90, rowStd_100_100,
    zCell_at_90, zCell_at_110, zCell_zero_std]

lemma posCell_low :
    exitMaskCell (0 : ℝ) (some (-(Real.sqrt 2) / 2))
      (entryCell (-1) (some (-(Real.sqrt 2) / 2))) = 0 := by
  have h1 : ¬ (-(Real.sqrt 2) / 2 < (-1 : ℝ)) := by
    have := sqrt_two_lt_two
    intro h
    nlinarith
  have h2 : ¬ (-(Real.sqrt 2) / 2 > (0 : ℝ)) := by
    have := sqrt_two_pos
    intro h
    nlinarith
  simp [entryCell, exitMaskCell, h1, h2]

lemma posCell_high :
    exitMaskCell (0 : ℝ) (some (Real.sqrt 2 / 2))
      (entryCell (-1) (some (Real.sqrt 2 / 2))) = 0 := by
  have h1 : ¬ (Real.sqrt 2 / 2 < (-1 : ℝ)) := by
    have := sqrt_two_pos
    intro h
    nlinarith
  have h2 : Real.sqrt 2 / 2 > (0 : ℝ) := by
    have := sqrt_two_pos
    nlinarith
  simp [entryCell, exitMaskCell, h1, h2]

lemma pos_c5 : main_positions c5prices = [[0, 0], [0, 0], [0, 0]] := by
  unfold main_positions
  rw [zs_c5]
  rw [generate_positions_eq _ _ _ 2 (by
    intro r hr
    simp only [List.mem_cons, List.not_mem_nil, or_false] at hr
    rcases hr with rfl | rfl | rfl <;> rfl)]
  simp only [List.map_cons, List.map_nil, posCell_low, posCell_high]
  simp [entryCell, exitMaskCell]

/-- C5 counterexample: in the concrete scenario the z-score of instrument A
at the first date is `-√2/2`, not exactly `-1`: the code uses the sample
(ddof = 1) cross-sectional standard deviation `10√2`, not the population
value 10 asserted by the claim. -/
theorem C5_counterexample :
    ((compute_basket_zscores c5prices).getD 0 []).getD 0 none ≠ some (-1) := by
  rw [zs_c5]
  simp only [List.getD_cons_zero]
  intro h
  have h2 : -(Real.sqrt 2) / 2 = (-1 : ℝ) := by simpa using h
  have := sqrt_two_lt_two
  nlinarith

/-- C5 amended: at the first date the cross-sectional mean is 100 and the
sample standard deviation is `10√2`, so the z-scores of A and B are `-√2/2`
and `√2/2`; since `-√2/2 > -1` no entry triggers (under the strict
comparison of the code) and both positions are 0 at that date. -/
theorem C5_scenario_zscores_and_positions :
    rowMean [some (90 : ℝ), some 110] = some 100 ∧
    rowStd [some (90 : ℝ), some 110] = some (10 * Real.sqrt 2) ∧
    (compute_basket_zscores c5prices).getD 0 [] =
      [some (-(Real.sqrt 2) / 2), some (Real.sqrt 2 / 2)] ∧
    -(Real.sqrt 2) / 2 > (-1 : ℝ) ∧
    (main_positions c5prices).getD 0 [] = [0, 0] := by
  refine ⟨rowMean_90_110, rowStd_90_110, ?_, ?_, ?_⟩
  · rw [zs_c5]; rfl
  · have := sqrt_two_lt_two
    nlinarith
  · rw [pos_c5]; rfl

/-! ### C6: zero cross-sectional standard deviation is absorbed -/

lemma clean_c6 : cleanOf c6prices = c6prices := by
  simp [cleanOf, c6prices, ffill, ffillAux, fillCell, keepRow]

lemma zs_c6 : compute_basket_zscores c6prices = [[none, none], [none, none]] := by
  unfold compute_basket_zscores
  rw [clean_c6]
  show ([[some 100, some 100], [some 100, some 100]] :
      List (List (Option ℝ))).map
        (fun r => r.map (fun c => zCell (rowMean r) (rowStd r) c)) = _
  simp only [List.map_cons, List.map_nil, rowStd_100_100, zCell_zero_std]

lemma pos_c6 : main_positions c6prices = [[0, 0], [0, 0]] := by
  unfold main_positions
  rw [zs_c6]
  rw [generate_positions_eq _ _ _ 2 (by
    intro r hr
    simp only [List.mem_cons, List.not_mem_nil, or_false] at hr
    rcases hr with rfl | rfl <;> rfl)]
  simp [entryCell, exitMaskCell]

lemma strat_c6 : main_strat_ret c6prices = [0, 0] := by
  unfold main_strat_ret backtest
  rw [pos_c6]
  unfold strat_ret_of gross_ret_of n_open_of trades_of shifted_pos_of
    daily_ret_of pct_change
  norm_num [c6prices, scanPairs, pctCell]

/-- C6: on any date of the cleaned table whose cross-sectional sample
standard deviation is zero, every z-score of that date is undefined
(missing); a date whose z-scores are all undefined contributes no entry at
all (the whole position row is 0 in the code, which implies the claim's
"absent a prior held state" form); and on the concrete two-instrument
constant-price table the strategy period return of the full pipeline is 0
for both periods. -/
theorem C6_degenerate_signal_neutral :
    (∀ (P : List (List (Option ℝ))) (t : ℕ) (crow : List (Option ℝ)),
      (cleanOf P)[t]? = some crow → rowStd crow = some 0 →
      (compute_basket_zscores P)[t]? = some (crow.map (fun _ => none))) ∧
    (∀ (zs : List (List (Option ℝ))) (e x : ℝ) (m t : ℕ) (zrow : List (Option ℝ)),
      (∀ r ∈ zs, r.length = m) → zs[t]? = some zrow → (∀ c ∈ zrow, c = none) →
      (generate_positions zs e x)[t]? = some (zrow.map (fun _ => (0 : ℤ)))) ∧
    main_strat_ret c6prices = [0, 0] := by
  refine ⟨?_, ?_, strat_c6⟩
  · intro P t crow hc hs
    unfold compute_basket_zscores
    rw [List.getElem?_map, hc]
    simp only [Option.map_some']
    congr 1
    rw [hs]
    exact List.map_eq_map_iff.mpr (fun c _ => zCell_zero_std (rowMean crow) c)
  · intro zs e x m t zrow hm ht hz
    rw [generate_positions_eq zs e x m hm]
    rw [List.getElem?_map, ht]
    simp only [Option.map_some']
    congr 1
    refine List.map_eq_map_iff.mpr ?_
    intro c hc
    rw [hz c hc]
    rfl

/-- C6 witness: the theorem instantiated on the concrete constant-price
table (zero standard deviation at the first date) and on its all-undefined
z-score table. -/
theorem C6_degenerate_signal_neutral_witness :
    (compute_basket_zscores c6prices)[0]? =
      some (([some (100 : ℝ), some 100]).map (fun _ => none)) ∧
    (generate_positions [[none, none], [none, none]] (-1 : ℝ) 0)[0]? =
      some (([none, none] : List (Option ℝ)).map (fun _ => (0 : ℤ))) := by
  refine ⟨C6_degenerate_signal_neutral.1 c6prices 0 [some 100, some 100] ?_
      rowStd_100_100,
    C6_degenerate_signal_neutral.2.1 [[none, none], [none, none]] (-1) 0 2 0
      [none, none] ?_ (by simp) (by simp)⟩
  · rw [clean_c6]; simp [c6prices]
  · intro r hr
    simp only [List.mem_cons, List.not_mem_nil, or_false] at hr
    rcases hr with rfl | rfl <;> rfl

/-! ### Infrastructure for the no-look-ahead theorem (C2) -/

lemma getElem?_eq_of_take_eq {β : Type} {xs ys : List β} {n t : ℕ}
    (h : xs.take n = ys.take n) (ht : t < n) : xs[t]? = ys[t]? := by
  have h1 : (xs.take n)[t]? = xs[t]? := List.getElem?_take_of_lt ht
  have h2 : (ys.take n)[t]? = ys[t]? := List.getElem?_take_of_lt ht
  rw [← h1, ← h2, h]

lemma take_succ_of_cons {β : Type} (a : β) (l : List β) (n : ℕ) :
    (a :: l).take (n + 1) = a :: l.take n := rfl

lemma ffillAux_take {β : Type} :
    ∀ (n : ℕ) (prev : List (Option β)) (xs ys : List (List (Option β))),
      xs.take n = ys.take n →
      (ffillAux prev xs).take n = (ffillAux prev ys).take n := by
  intro n
  induction n with
  | zero => intro prev xs ys _; rfl
  | succ k ih =>
    intro prev xs ys h
    cases xs with
    | nil =>
      cases ys with
      | nil => rfl
      | cons y yt => simp [take_succ_of_cons] at h
    | cons x xt =>
      cases ys with
      | nil => simp [take_succ_of_cons] at h
      | cons y yt =>
        rw [take_succ_of_cons, take_succ_of_cons] at h
        obtain ⟨rfl, htail⟩ : x = y ∧ xt.take k = yt.take k := by
          exact ⟨List.head_eq_of_cons_eq h, List.tail_eq_of_cons_eq h⟩
        simp only [ffillAux, take_succ_of_cons]
        rw [ih (List.zipWith fillCell prev x) xt yt htail]

lemma ffill_take {β : Type} (n : ℕ) (xs ys : List (List (Option β)))
    (h : xs.take n = ys.take n) : (ffill xs).take n = (ffill ys).take n := by
  cases n with
  | zero => rfl
  | succ k =>
    cases xs with
    | nil =>
      cases ys with
      | nil => rfl
      | cons y yt => simp [take_succ_of_cons] at h
    | cons x xt =>
      cases ys with
      | nil => simp [take_succ_of_cons] at h
      | cons y yt =>
        rw [take_succ_of_cons, take_succ_of_cons] at h
        obtain ⟨rfl, htail⟩ : x = y ∧ xt.take k = yt.take k := by
          exact ⟨List.head_eq_of_cons_eq h, List.tail_eq_of_cons_eq h⟩
        simp only [ffill, take_succ_of_cons]
        rw [ffillAux_take k x xt yt htail]

lemma ffillAux_length {β : Type} :
    ∀ (xs : List (List (Option β))) (prev : List (Option β)),
      (ffillAux prev xs).length = xs.length := by
  intro xs
  induction xs with
  | nil => intro prev; rfl
  | cons x xt ih => intro prev; simp only [ffillAux, List.length_cons, ih]

lemma ffill_length {β : Type} (xs : List (List (Option β))) :
    (ffill xs).length = xs.length := by
  cases xs with
  | nil => rfl
  | cons x xt => simp only [ffill, List.length_cons, ffillAux_length]

lemma ffillAux_width {β : Type} :
    ∀ (xs : List (List (Option β))) (prev : List (Option β)) (m : ℕ),
      prev.length = m → (∀ r ∈ xs, r.length = m) →
      ∀ r ∈ ffillAux prev xs, r.length = m := by
  intro xs
  induction xs with
  | nil => intro prev m _ _ r hr; simp [ffillAux] at hr
  | cons x xt ih =>
    intro prev m hp hx r hr
    have hz : (List.zipWith fillCell prev x).length = m := by
      rw [List.length_zipWith, hp, hx x (by simp)]
      omega
    simp only [ffillAux] at hr
    rcases List.mem_cons.mp hr with rfl | hr2
    · exact hz
    · exact ih (List.zipWith fillCell prev x) m hz
        (fun z hzz => hx z (by simp [hzz])) r hr2

lemma ffill_width {β : Type} (xs : List (List (Option β))) (m : ℕ)
    (hx : ∀ r ∈ xs, r.length = m) : ∀ r ∈ ffill xs, r.length = m := by
  cases xs with
  | nil => intro r hr; simp [ffill] at hr
  | cons x xt =>
    intro r hr
    simp only [ffill] at hr
    rcases List.mem_cons.mp hr with rfl | hr2
    · exact hx r (by simp)
    · exact ffillAux_width xt x m (hx x (by simp))
        (fun z hz => hx z (by simp [hz])) r hr2

lemma keepRow_zipWith_fillCell {β : Type} :
    ∀ (r prev : List (Option β)), r.length ≤ prev.length →
      keepRow r = true → keepRow (List.zipWith fillCell prev r) = true := by
  intro r
  induction r with
  | nil => intro prev _ hk; simp [keepRow] at hk
  | cons c cs ih =>
    intro prev hlen hk
    cases prev with
    | nil => simp at hlen
    | cons p ps =>
      simp only [List.zipWith_cons_cons]
      cases c with
      | some v =>
        simp [keepRow, fillCell]
      | none =>
        have hk2 : keepRow cs = true := by simpa [keepRow] using hk
        have := ih ps (by simpa using hlen) hk2
        simp only [keepRow, List.any_cons] at *
        simp [this]

lemma ffillAux_keep {β : Type} :
    ∀ (xs : List (List (Option β))) (prev : List (Option β)) (m : ℕ),
      prev.length = m → (∀ r ∈ xs, r.length = m) →
      (∀ r ∈ xs, keepRow r = true) →
      ∀ r ∈ ffillAux prev xs, keepRow r = true := by
  intro xs
  induction xs with
  | nil => intro prev m _ _ _ r hr; simp [ffillAux] at hr
  | cons x xt ih =>
    intro prev m hp hw hk r hr
    have hzw : (List.zipWith fillCell prev x).length = m := by
      rw [List.length_zipWith, hp, hw x (by simp)]
      omega
    simp only [ffillAux] at hr
    rcases List.mem_cons.mp hr with rfl | hr2
    · exact keepRow_zipWith_fillCell x prev (by rw [hp, hw x (by simp)])
        (hk x (by simp))
    · exact ih (List.zipWith fillCell prev x) m hzw
        (fun z hz => hw z (by simp [hz])) (fun z hz => hk z (by simp [hz])) r hr2

lemma ffill_keep {β : Type} (xs : List (List (Option β))) (m : ℕ)
    (hw : ∀ r ∈ xs, r.length = m) (hk : ∀ r ∈ xs, keepRow r = true) :
    ∀ r ∈ ffill xs, keepRow r = true := by
  cases xs with
  | nil => intro r hr; simp [ffill] at hr
  | cons x xt =>
    intro r hr
    simp only [ffill] at hr
    rcases List.mem_cons.mp hr with rfl | hr2
    · exact hk r (by simp)
    · exact ffillAux_keep xt x m (hw x (by simp))
        (fun z hz => hw z (by simp [hz])) (fun z hz => hk z (by simp [hz])) r hr2

/-- When every row of the table keeps at least one present value, the
`dropna(how="all")` of `compute_basket_zscores` drops nothing. -/
lemma cleanOf_eq_ffill (P : List (List (Option ℝ))) (m : ℕ)
    (hw : ∀ r ∈ P, r.length = m) (hk : ∀ r ∈ P, keepRow r = true) :
    cleanOf P = ffill P := by
  unfold cleanOf
  exact List.filter_eq_self.mpr (ffill_keep P m hw hk)

lemma scanPairs_length {β γ : Type} (f : β → β → γ) :
    ∀ (xs : List β) (p : β), (scanPairs f p xs).length = xs.length := by
  intro xs
  induction xs with
  | nil => intro p; rfl
  | cons x xt ih => intro p; simp only [scanPairs, List.length_cons, ih]

lemma pct_change_length {α : Type} [LinearOrderedField α]
    (P : List (List (Option α))) : (pct_change P).length = P.length := by
  cases P with
  | nil => rfl
  | cons r rs => simp only [pct_change, List.length_cons, scanPairs_length]

lemma shifted_pos_length (pos : List (List ℤ)) :
    (shifted_pos_of pos).length = pos.length := by
  cases pos with
  | nil => rfl
  | cons r rs =>
    simp only [shifted_pos_of, List.length_cons, List.length_dropLast]
    simp

lemma trades_length (pos : List (List ℤ)) :
    (trades_of pos).length = pos.length := by
  rw [← shifted_pos_length pos]
  cases h : shifted_pos_of pos with
  | nil => simp [trades_of, h]
  | cons r rs => simp [trades_of, h, scanPairs_length]

lemma getElem?_eq_none_of_len {β : Type} {l : List β} {t : ℕ}
    (h : l.length ≤ t) : l[t]? = none :=
  List.getElem?_eq_none_iff.mpr h

lemma zipWith_getElem?_congr {β γ δ : Type} (f : β → γ → δ)
    {as as2 : List β} {bs bs2 : List γ} {t : ℕ}
    (hla : as.length = as2.length) (hlb : bs.length = bs2.length)
    (ha : as[t]? = as2[t]?) (hb : bs[t]? = bs2[t]?) :
    (List.zipWith f as bs)[t]? = (List.zipWith f as2 bs2)[t]? := by
  by_cases h1 : t < as.length
  · by_cases h2 : t < bs.length
    · obtain ⟨a, hae⟩ : ∃ a, as[t]? = some a :=
        ⟨as[t], (List.getElem?_eq_some_getElem_iff as t h1).mpr trivial⟩
      obtain ⟨b, hbe⟩ : ∃ b, bs[t]? = some b :=
        ⟨bs[t], (List.getElem?_eq_some_getElem_iff bs t h2).mpr trivial⟩
      rw [zipWith_getElem?_some f as bs t a b hae hbe,
        zipWith_getElem?_some f as2 bs2 t a b (by rw [← ha]; exact hae)
          (by rw [← hb]; exact hbe)]
    · have e1 : (List.zipWith f as bs)[t]? = none := by
        refine getElem?_eq_none_of_len ?_
        rw [List.length_zipWith]
        omega
      have e2 : (List.zipWith f as2 bs2)[t]? = none := by
        refine getElem?_eq_none_of_len ?_
        rw [List.length_zipWith]
        omega
      rw [e1, e2]
  · have e1 : (List.zipWith f as bs)[t]? = none := by
      refine getElem?_eq_none_of_len ?_
      rw [List.length_zipWith]
      omega
    have e2 : (List.zipWith f as2 bs2)[t]? = none := by
      refine getElem?_eq_none_of_len ?_
      rw [List.length_zipWith]
      omega
    rw [e1, e2]

lemma dropLast_getElem? {β : Type} (l : List β) (t : ℕ) :
    l.dropLast[t]? = if t < l.length - 1 then l[t]? else none := by
  rw [List.dropLast_eq_take]
  by_cases h : t < l.length - 1
  · rw [if_pos h, List.getElem?_take_of_lt h]
  · rw [if_neg h]
    refine getElem?_eq_none_of_len ?_
    rw [List.length_take]
    omega

lemma shifted_pos_getElem?_succ (pos : List (List ℤ)) (t : ℕ) :
    (shifted_pos_of pos)[t + 1]? =
      if t + 1 < pos.length then pos[t]? else none := by
  cases pos with
  | nil => simp [shifted_pos_of]
  | cons r rs =>
    simp only [shifted_pos_of, List.getElem?_cons_succ]
    rw [dropLast_getElem?]
    simp only [List.length_cons]
    by_cases h : t + 1 < rs.length + 1
    · rw [if_pos (by omega), if_pos h]
    · rw [if_neg (by omega), if_neg h]

lemma trades_getElem?_succ (pos : List (List ℤ)) (t : ℕ) (a b : List ℤ)
    (ha : (shifted_pos_of pos)[t]? = some a)
    (hb : (shifted_pos_of pos)[t + 1]? = some b) :
    (trades_of pos)[t + 1]? =
      some ((List.zipWith (fun x y => |x - y|) b a).sum) := by
  rcases h : shifted_pos_of pos with _ | ⟨r, rs⟩
  · rw [h] at ha; simp at ha
  · rw [h] at ha hb
    have htr : trades_of pos =
        0 :: scanPairs (fun p c => (List.zipWith (fun x y => |x - y|) c p).sum) r rs := by
      unfold trades_of
      rw [h]
    rw [htr]
    cases t with
    | zero =>
      obtain rfl : r = a := by simpa using ha
      have hb2 : rs[0]? = some b := by simpa using hb
      simp only [List.getElem?_cons_succ]
      rw [scanPairs_getElem?_zero, hb2]
      rfl
    | succ k =>
      simp only [List.getElem?_cons_succ]
      exact scanPairs_getElem?_succ _ rs r k a b (by simpa using ha)
        (by simpa using hb)

lemma getElem?_exists_of_lt {β : Type} (l : List β) (t : ℕ) (h : t < l.length) :
    ∃ a, l[t]? = some a :=
  ⟨l[t], (List.getElem?_eq_some_getElem_iff l t h).mpr trivial⟩

lemma map_const_len {β γ : Type} (c : γ) :
    ∀ (a b : List β), a.length = b.length →
      a.map (fun _ => c) = b.map (fun _ => c) := by
  intro a
  induction a with
  | nil => intro b h; cases b with
    | nil => rfl
    | cons y ys => simp at h
  | cons x xs ih =>
    intro b h
    cases b with
    | nil => simp at h
    | cons y ys =>
      simp only [List.map_cons]
      rw [ih ys (by simpa using h)]

/-- C2 amended: the no-look-ahead property the code actually has.  For two
price tables of the same shape (uniform width, no all-missing rows) that
differ only in the prices at a single date `T`, the strategy period returns
of the full pipeline agree at every period ending strictly before `T`, and
the lagged position row applied to the period ending at `T` is identical in
both runs — a changed price at `T` can reach the return of the period
ending at `T` only through the price itself, never through the positions. -/
theorem C2_no_lookahead (P Q : List (List (Option ℝ))) (T m : ℕ)
    (hlen : P.length = Q.length)
    (htake : P.take T = Q.take T)
    (hdrop : P.drop (T + 1) = Q.drop (T + 1))
    (hwP : ∀ r ∈ P, r.length = m) (hwQ : ∀ r ∈ Q, r.length = m)
    (hkP : ∀ r ∈ P, keepRow r = true) (hkQ : ∀ r ∈ Q, keepRow r = true) :
    (∀ t, t < T → (main_strat_ret P)[t]? = (main_strat_ret Q)[t]?) ∧
    (shifted_pos_of (main_positions P))[T]? =
      (shifted_pos_of (main_positions Q))[T]? := by
  have hcleanP := cleanOf_eq_ffill P m hwP hkP
  have hcleanQ := cleanOf_eq_ffill Q m hwQ hkQ
  have hfwP := ffill_width P m hwP
  have hfwQ := ffill_width Q m hwQ
  have hzsP : compute_basket_zscores P =
      (ffill P).map (fun r => r.map (fun c => zCell (rowMean r) (rowStd r) c)) := by
    unfold compute_basket_zscores
    rw [hcleanP]
  have hzsQ : compute_basket_zscores Q =
      (ffill Q).map (fun r => r.map (fun c => zCell (rowMean r) (rowStd r) c)) := by
    unfold compute_basket_zscores
    rw [hcleanQ]
  have hzstake : (compute_basket_zscores P).take T =
      (compute_basket_zscores Q).take T := by
    rw [hzsP, hzsQ, ← List.map_take, ← List.map_take, ffill_take T P Q htake]
  have hzsWP : ∀ r ∈ compute_basket_zscores P, r.length = m := by
    intro r hr
    rw [hzsP] at hr
    obtain ⟨crow, hcr, rfl⟩ := List.mem_map.mp hr
    simp [hfwP crow hcr]
  have hzsWQ : ∀ r ∈ compute_basket_zscores Q, r.length = m := by
    intro r hr
    rw [hzsQ] at hr
    obtain ⟨crow, hcr, rfl⟩ := List.mem_map.mp hr
    simp [hfwQ crow hcr]
  have hzsLP : (compute_basket_zscores P).length = P.length := by
    rw [hzsP, List.length_map, ffill_length]
  have hzsLQ : (compute_basket_zscores Q).length = Q.length := by
    rw [hzsQ, List.length_map, ffill_length]
  have hposP : main_positions P = (compute_basket_zscores P).map
      (fun r => r.map (fun z => exitMaskCell 0 z (entryCell (-1) z))) := by
    unfold main_positions
    exact generate_positions_eq _ _ _ m hzsWP
  have hposQ : main_positions Q = (compute_basket_zscores Q).map
      (fun r => r.map (fun z => exitMaskCell 0 z (entryCell (-1) z))) := by
    unfold main_positions
    exact generate_positions_eq _ _ _ m hzsWQ
  have hposTake : (main_positions P).take T = (main_positions Q).take T := by
    rw [hposP, hposQ, ← List.map_take, ← List.map_take, hzstake]
  have hposLP : (main_positions P).length = P.length := by
    rw [hposP, List.length_map, hzsLP]
  have hposLQ : (main_positions Q).length = Q.length := by
    rw [hposQ, List.length_map, hzsLQ]
  have hposL : (main_positions P).length = (main_positions Q).length := by
    rw [hposLP, hposLQ, hlen]
  have hposWP : ∀ r ∈ main_positions P, r.length = m := by
    intro r hr
    rw [hposP] at hr
    obtain ⟨zrow, hz, rfl⟩ := List.mem_map.mp hr
    simp [hzsWP zrow hz]
  have hposWQ : ∀ r ∈ main_positions Q, r.length = m := by
    intro r hr
    rw [hposQ] at hr
    obtain ⟨zrow, hz, rfl⟩ := List.mem_map.mp hr
    simp [hzsWQ zrow hz]
  have hsh : ∀ t, t ≤ T → (shifted_pos_of (main_positions P))[t]? =
      (shifted_pos_of (main_positions Q))[t]? := by
    intro t htT
    cases t with
    | zero =>
      rcases hP0 : main_positions P with _ | ⟨a, as⟩
      · rcases hQ0 : main_positions Q with _ | ⟨b, bs⟩
        · rfl
        · rw [hP0, hQ0] at hposL
          simp at hposL
      · rcases hQ0 : main_positions Q with _ | ⟨b, bs⟩
        · rw [hP0, hQ0] at hposL
          simp at hposL
        · have hwa : a.length = m := hposWP a (by rw [hP0]; simp)
          have hwb : b.length = m := hposWQ b (by rw [hQ0]; simp)
          simp only [shifted_pos_of, List.getElem?_cons_zero]
          rw [map_const_len (0 : ℤ) a b (by rw [hwa, hwb])]
    | succ s =>
      rw [shifted_pos_getElem?_succ, shifted_pos_getElem?_succ, hposL]
      by_cases hc : s + 1 < (main_positions Q).length
      · rw [if_pos hc, if_pos hc]
        exact getElem?_eq_of_take_eq hposTake (by omega)
      · rw [if_neg hc, if_neg hc]
  have hdailyL : ∀ R : List (List (Option ℝ)), (daily_ret_of R).length = R.length := by
    intro R
    unfold daily_ret_of
    rw [List.length_map, pct_change_length]
  have hd : ∀ t, t < T → (daily_ret_of P)[t]? = (daily_ret_of Q)[t]? := by
    intro t htT
    unfold daily_ret_of
    rw [List.getElem?_map, List.getElem?_map]
    suffices hpc : (pct_change P)[t]? = (pct_change Q)[t]? by rw [hpc]
    cases t with
    | zero =>
      rcases hP0 : P with _ | ⟨p0, pt⟩
      · rcases hQ0 : Q with _ | ⟨q0, qt⟩
        · rfl
        · rw [hP0, hQ0] at hlen
          simp at hlen
      · rcases hQ0 : Q with _ | ⟨q0, qt⟩
        · rw [hP0, hQ0] at hlen
          simp at hlen
        · have h00 : p0 = q0 := by
            have h := getElem?_eq_of_take_eq htake (show 0 < T by omega)
            rw [hP0, hQ0] at h
            simpa using h
          simp only [pct_change, List.getElem?_cons_zero, h00]
    | succ s =>
      by_cases hc : s + 1 < P.length
      · obtain ⟨a, hae⟩ := getElem?_exists_of_lt P s (by omega)
        obtain ⟨b, hbe⟩ := getElem?_exists_of_lt P (s + 1) hc
        have haQ : Q[s]? = some a := by
          rw [← getElem?_eq_of_take_eq htake (show s < T by omega)]
          exact hae
        have hbQ : Q[s + 1]? = some b := by
          rw [← getElem?_eq_of_take_eq htake (show s + 1 < T by omega)]
          exact hbe
        rw [pct_change_getElem?_succ P s a b hae hbe,
          pct_change_getElem?_succ Q s a b haQ hbQ]
      · rw [getElem?_eq_none_of_len (by rw [pct_change_length]; omega),
          getElem?_eq_none_of_len (by rw [pct_change_length]; omega)]
  have hnop : ∀ t, t ≤ T → (n_open_of (main_positions P))[t]? =
      (n_open_of (main_positions Q))[t]? := by
    intro t htT
    unfold n_open_of
    rw [List.getElem?_map, List.getElem?_map, hsh t htT]
  have htrades : ∀ t, t < T → (trades_of (main_positions P))[t]? =
      (trades_of (main_positions Q))[t]? := by
    intro t htT
    cases t with
    | zero =>
      rcases hP0 : main_positions P with _ | ⟨a, as⟩
      · rcases hQ0 : main_positions Q with _ | ⟨b, bs⟩
        · rfl
        · rw [hP0, hQ0] at hposL
          simp at hposL
      · rcases hQ0 : main_positions Q with _ | ⟨b, bs⟩
        · rw [hP0, hQ0] at hposL
          simp at hposL
        · simp [trades_of, shifted_pos_of]
    | succ s =>
      by_cases hc : s + 1 < (main_positions P).length
      · obtain ⟨a, hae⟩ := getElem?_exists_of_lt (shifted_pos_of (main_positions P)) s
          (by rw [shifted_pos_length]; omega)
        obtain ⟨b, hbe⟩ := getElem?_exists_of_lt (shifted_pos_of (main_positions P))
          (s + 1) (by rw [shifted_pos_length]; omega)
        have haQ : (shifted_pos_of (main_positions Q))[s]? = some a := by
          rw [← hsh s (by omega)]
          exact hae
        have hbQ : (shifted_pos_of (main_positions Q))[s + 1]? = some b := by
          rw [← hsh (s + 1) (by omega)]
          exact hbe
        rw [trades_getElem?_succ _ s a b hae hbe,
          trades_getElem?_succ _ s a b haQ hbQ]
      · rw [getElem?_eq_none_of_len (by rw [trades_length]; omega),
          getElem?_eq_none_of_len (by rw [trades_length]; omega)]
  have hgross : ∀ t, t < T → (gross_ret_of P (main_positions P))[t]? =
      (gross_ret_of Q (main_positions Q))[t]? := by
    intro t htT
    unfold gross_ret_of
    apply zipWith_getElem?_congr
    · rw [List.length_zipWith, List.length_zipWith, shifted_pos_length,
        shifted_pos_length, hdailyL, hdailyL, hposLP, hposLQ, hlen]
    · unfold n_open_of
      rw [List.length_map, List.length_map, shifted_pos_length,
        shifted_pos_length, hposLP, hposLQ, hlen]
    · apply zipWith_getElem?_congr
      · rw [shifted_pos_length, shifted_pos_length, hposLP, hposLQ, hlen]
      · rw [hdailyL, hdailyL, hlen]
      · exact hsh t (by omega)
      · exact hd t htT
    · exact hnop t (by omega)
  refine ⟨?_, hsh T le_rfl⟩
  intro t htT
  have hms : ∀ R : List (List (Option ℝ)),
      main_strat_ret R = strat_ret_of R (main_positions R) (5 / 10000) :=
    fun R => rfl
  rw [hms, hms]
  unfold strat_ret_of
  apply zipWith_getElem?_congr
  · simp only [gross_ret_of, n_open_of, List.length_zipWith, List.length_map,
      shifted_pos_length, hdailyL, hposLP, hposLQ, hlen]
  · rw [trades_length, trades_length, hposLP, hposLQ, hlen]
  · exact hgross t htT
  · exact htrades t htT

/-! ### C2: concrete two-run evaluation -/

lemma rowMean_c2 : rowMean [some (92 : ℝ), some 103, some 105] = some 100 := by
  norm_num [rowMean, rowPresent, List.filterMap_cons]

lemma rowStd_c2 : rowStd [some (92 : ℝ), some 103, some 105] = some 7 := by
  norm_num [rowStd, rowPresent, List.filterMap_cons]
  rw [show (49 : ℝ) = 7 ^ 2 by norm_num]
  exact Real.sqrt_sq (by norm_num)

lemma zCell_92 : zCell (some 100) (some 7) (some 92) = some (-(8 / 7) : ℝ) := by
  rw [show zCell (some 100) (some 7) (some 92) =
      if (7 : ℝ) = 0 then none else some ((92 - 100) / 7) from rfl]
  rw [if_neg (by norm_num)]
  norm_num

lemma zCell_103 : zCell (some 100) (some 7) (some 103) = some ((3 / 7) : ℝ) := by
  rw [show zCell (some 100) (some 7) (some 103) =
      if (7 : ℝ) = 0 then none else some ((103 - 100) / 7) from rfl]
  rw [if_neg (by norm_num)]
  norm_num

lemma zCell_105 : zCell (some 100) (some 7) (some 105) = some ((5 / 7) : ℝ) := by
  rw [show zCell (some 100) (some 7) (some 105) =
      if (7 : ℝ) = 0 then none else some ((105 - 100) / 7) from rfl]
  rw [if_neg (by norm_num)]
  norm_num

lemma clean_c2P : cleanOf c2pricesP = c2pricesP := by
  simp [cleanOf, c2pricesP, ffill, ffillAux, fillCell, keepRow]

lemma clean_c2Q : cleanOf c2pricesQ = c2pricesQ := by
  simp [cleanOf, c2pricesQ, ffill, ffillAux, fillCell, keepRow]

lemma zs_c2P : compute_basket_zscores c2pricesP =
    [[some (-(8 / 7) : ℝ), some (3 / 7), some (5 / 7)],
     [some (-(8 / 7) : ℝ), some (3 / 7), some (5 / 7)]] := by
  unfold compute_basket_zscores
  rw [clean_c2P]
  show (c2pricesP).map
      (fun r => r.map (fun c => zCell (rowMean r) (rowStd r) c)) = _
  simp only [c2pricesP, List.map_cons, List.map_nil, rowMean_c2, rowStd_c2,
    zCell_92, zCell_103, zCell_105]

lemma zs_c2Q : ∃ z1, compute_basket_zscores c2pricesQ =
    [[some (-(8 / 7) : ℝ), some (3 / 7), some (5 / 7)], z1] :=
  ⟨([some (115 : ℝ), some 103, some 105]).map
      (fun c => zCell (rowMean [some (115 : ℝ), some 103, some 105])
        (rowStd [some (115 : ℝ), some 103, some 105]) c), by
    unfold compute_basket_zscores
    rw [clean_c2Q]
    show (c2pricesQ).map
        (fun r => r.map (fun c => zCell (rowMean r) (rowStd r) c)) = _
    simp only [c2pricesQ, List.map_cons, List.map_nil, rowMean_c2, rowStd_c2,
      zCell_92, zCell_103, zCell_105]⟩

lemma generate_positions_pair (zr0 zr1 : List (Option ℝ)) (e x : ℝ) :
    ∃ p1, generate_positions [zr0, zr1] e x =
      [zr0.map (fun z => exitMaskCell x z (entryCell e z)), p1] := by
  refine ⟨(List.zipWith fillCell
      ((List.zipWith (exitMaskCell x) zr0 (zr0.map (entryCell e))).map
        (fun p => some p))
      ((List.zipWith (exitMaskCell x) zr1 (zr1.map (entryCell e))).map
        (fun p => some p))).map (fun c => c.getD 0), ?_⟩
  unfold generate_positions
  simp only [List.map_cons, List.map_nil, List.zipWith_cons_cons,
    List.zipWith_nil_right, ffill, ffillAux]
  congr 1
  rw [List.zipWith_map_right, List.zipWith_same, List.map_map, List.map_map]
  simp

lemma posrow0_c2 :
    ([some (-(8 / 7) : ℝ), some (3 / 7), some (5 / 7)]).map
      (fun z => exitMaskCell (0 : ℝ) z (entryCell (-1) z)) = [1, 0, 0] := by
  norm_num [entryCell, exitMaskCell]

lemma strat_c2P : main_strat_ret c2pricesP = [0, -(1 / 2000)] := by
  obtain ⟨p1, hp⟩ := generate_positions_pair
    [some (-(8 / 7) : ℝ), some (3 / 7), some (5 / 7)]
    [some (-(8 / 7) : ℝ), some (3 / 7), some (5 / 7)] (-1) 0
  have hpos : main_positions c2pricesP = [[1, 0, 0], p1] := by
    unfold main_positions
    rw [zs_c2P, hp, posrow0_c2]
  unfold main_strat_ret backtest
  rw [hpos]
  unfold strat_ret_of gross_ret_of n_open_of trades_of shifted_pos_of
    daily_ret_of pct_change
  norm_num [c2pricesP, scanPairs, pctCell]

lemma strat_c2Q : main_strat_ret c2pricesQ = [0, 499 / 2000] := by
  obtain ⟨z1, hz⟩ := zs_c2Q
  obtain ⟨p1, hp⟩ := generate_positions_pair
    [some (-(8 / 7) : ℝ), some (3 / 7), some (5 / 7)] z1 (-1) 0
  have hpos : main_positions c2pricesQ = [[1, 0, 0], p1] := by
    unfold main_positions
    rw [hz, hp, posrow0_c2]
  unfold main_strat_ret backtest
  rw [hpos]
  unfold strat_ret_of gross_ret_of n_open_of trades_of shifted_pos_of
    daily_ret_of pct_change
  norm_num [c2pricesQ, scanPairs, pctCell]

/-- C2 counterexample: the two price tables agree everywhere except at date
`T = 1` (instrument A: 92 vs 115), A holds an open lagged position over the
period ending at `T`, and the strategy period return for the period ending
at `T` differs between the two runs (`-1/2000` vs `499/2000`): a price
change at `T` reaches the return of the period ending at `T` through the
price itself, so that return is not invariant as the claim states. -/
theorem C2_counterexample :
    c2pricesP.take 1 = c2pricesQ.take 1 ∧
    c2pricesP.drop 2 = c2pricesQ.drop 2 ∧
    c2pricesP.length = c2pricesQ.length ∧
    (main_strat_ret c2pricesP).getD 1 0 ≠ (main_strat_ret c2pricesQ).getD 1 0 := by
  refine ⟨rfl, rfl, rfl, ?_⟩
  rw [strat_c2P, strat_c2Q]
  norm_num [List.getD]

/-- C2 witness: the amended no-look-ahead theorem applied to the concrete
pair of tables that differ only at date 1. -/
theorem C2_no_lookahead_witness :
    (∀ t, t < 1 → (main_strat_ret c2pricesP)[t]? = (main_strat_ret c2pricesQ)[t]?) ∧
    (shifted_pos_of (main_positions c2pricesP))[1]? =
      (shifted_pos_of (main_positions c2pricesQ))[1]? :=
  C2_no_lookahead c2pricesP c2pricesQ 1 3 rfl rfl rfl
    (by
      intro r hr
      simp only [c2pricesP, List.mem_cons, List.not_mem_nil, or_false] at hr
      rcases hr with rfl | rfl <;> rfl)
    (by
      intro r hr
      simp only [c2pricesQ, List.mem_cons, List.not_mem_nil, or_false] at hr
      rcases hr with rfl | rfl <;> rfl)
    (by
      intro r hr
      simp only [c2pricesP, List.mem_cons, List.not_mem_nil, or_false] at hr
      rcases hr with rfl | rfl <;> simp [keepRow])
    (by
      intro r hr
      simp only [c2pricesQ, List.mem_cons, List.not_mem_nil, or_false] at hr
      rcases hr with rfl | rfl <;> simp [keepRow])

end Meridian
